import Mathlib

/-
Verification development for the ldbc_stat_gen statistics generator
(src/main.rs).  The program streams delimited vertex and edge files,
accumulates a vertex cardinality table, a three-level edge cardinality
table with wildcard roll-ups, and two identifier registries (place and
organisation) used to resolve identifier-indirected edge endpoints.

Counters are stored by the program as f64 values incremented by 1.0 per
observation; such increments are exact for integer counts, so counts are
modelled as Nat.  Rust HashMaps are modelled as association lists with
first-occurrence lookup; entry-or-insert mutation is modelled by upsertA.
-/

set_option maxRecDepth 4000

namespace LdbcStat

instance {e a : Type} [DecidableEq e] [DecidableEq a] : DecidableEq (Except e a) := fun x y =>
  match x, y with
  | .error u, .error v =>
    if h : u = v then .isTrue (by rw [h]) else .isFalse (by intro hc; cases hc; exact h rfl)
  | .ok u, .ok v =>
    if h : u = v then .isTrue (by rw [h]) else .isFalse (by intro hc; cases hc; exact h rfl)
  | .error _, .ok _ => .isFalse (by intro hc; cases hc)
  | .ok _, .error _ => .isFalse (by intro hc; cases hc)

/-- Lookup in an association list (model of HashMap get). -/
def lookupA {α β : Type} [DecidableEq α] : List (α × β) → α → Option β
  | [], _ => none
  | (k, v) :: t, a => if k = a then some v else lookupA t a

/-- Entry-or-insert-then-modify (model of the HashMap entry API). -/
def upsertA {α β : Type} [DecidableEq α] : List (α × β) → α → (Option β → β) → List (α × β)
  | [], a, f => [(a, f none)]
  | (k, v) :: t, a, f =>
    if k = a then (k, f (some v)) :: t else (k, v) :: upsertA t a f

/-- Vertex cardinality table: label to count, "" is the wildcard key. -/
abbrev VMap := List (String × Nat)

/-- Innermost level of the edge cardinality table: destination label to count. -/
abbrev DMap := List (String × Nat)

/-- Middle level: edge label to destination table. -/
abbrev EMap := List (String × DMap)

/-- Outer level: source label to middle table. -/
abbrev SMap := List (String × EMap)

/-- Identity registry family: numeric identifier to concrete label. -/
abbrev Reg := List (Nat × String)

structure Statistics where
  vertex_cardinality : VMap
  edge_cardinality : SMap
deriving DecidableEq

structure Context where
  statistics : Statistics
  place : Reg
  organisation : Reg
deriving DecidableEq

/-- Context default at process start: everything empty. -/
def initContext : Context := ⟨⟨[], []⟩, [], []⟩

/-- Which registry family an indirected endpoint resolves through. -/
inductive Fam
  | place
  | organisation
deriving DecidableEq

def Context.reg (ctx : Context) : Fam → Reg
  | .place => ctx.place
  | .organisation => ctx.organisation

inductive ImportError
  | indexOutOfBounds
  | parseIntError
  | duplicateIdentifier
  | unresolvedIdentifier
  | headerError
  | illegalLabelName (src edge dst : String)
deriving DecidableEq

inductive LabelName
  | Vertex (label : String)
  | Edge (src edge dst : String)
deriving DecidableEq

/-- Helper for splitOnChar: accumulates the current token reversed. -/
def splitCharsAux (sep : Char) : List Char → List Char → List String
  | [], acc => [String.mk acc.reverse]
  | c :: t, acc =>
    if c = sep then String.mk acc.reverse :: splitCharsAux sep t []
    else splitCharsAux sep t (c :: acc)

/-- Rust str split on a single separator character; always nonempty output. -/
def splitOnChar (s : String) (sep : Char) : List String := splitCharsAux sep s.data []

/-- Rust str starts_with on string literals. -/
def strStartsWith (s pre : String) : Bool := pre.data.isPrefixOf s.data

def digitsToNat : Nat → List Char → Option Nat
  | acc, [] => some acc
  | acc, c :: t => if c.isDigit then digitsToNat (acc * 10 + (c.toNat - 48)) t else none

/-- Rust u64 from_str: optional leading plus sign, then decimal digits, range-checked. -/
def parseU64 (s : String) : Option Nat :=
  let cs := match s.data with
    | '+' :: t => t
    | cs => cs
  match cs with
  | [] => none
  | _ :: _ =>
    match digitsToNat 0 cs with
    | none => none
    | some n => if n < 2 ^ 64 then some n else none

/-- Labels routed to the place registry (main.rs line 75). -/
def familyPlace (s : String) : Bool := s == "City" || s == "Country" || s == "Continent"

/-- Labels routed to the organisation registry (main.rs line 82). -/
def familyOrganisation (s : String) : Bool := s == "University" || s == "Company"

def famCheck : Fam → String → Bool
  | .place => familyPlace
  | .organisation => familyOrganisation

/-- Registry-insertion step of the vertex consumer loop (main.rs lines 73-91):
for a row label in the place or organisation family, parse the id column
(index 0) and insert id to label, failing when the id is already present. -/
def registerLabel (ctx : Context) (record : List String) (lbl : String) :
    Except ImportError Context :=
  if familyPlace lbl then
    match record[0]? with
    | none => .error .indexOutOfBounds
    | some s =>
      match parseU64 s with
      | none => .error .parseIntError
      | some id =>
        match lookupA ctx.place id with
        | some _ => .error .duplicateIdentifier
        | none => .ok { ctx with place := (id, lbl) :: ctx.place }
  else if familyOrganisation lbl then
    match record[0]? with
    | none => .error .indexOutOfBounds
    | some s =>
      match parseU64 s with
      | none => .error .parseIntError
      | some id =>
        match lookupA ctx.organisation id with
        | some _ => .error .duplicateIdentifier
        | none => .ok { ctx with organisation := (id, lbl) :: ctx.organisation }
  else .ok ctx

/-- Increment one counter by one (entry or_insert 0 followed by plus one). -/
def bumpCount (m : List (String × Nat)) (k : String) : List (String × Nat) :=
  upsertA m k (fun o => o.getD 0 + 1)

/-- The two vertex-cardinality increments of main.rs lines 95-96:
the concrete label and the wildcard. -/
def bumpVertex (ctx : Context) (label : String) : Context :=
  { ctx with statistics := { ctx.statistics with
      vertex_cardinality :=
        bumpCount (bumpCount ctx.statistics.vertex_cardinality label) "" } }

/-- One iteration of the vertex consumer loop (main.rs lines 72-97). -/
def import_vertex_row (label_index : Option Nat) (label_name : String)
    (ctx : Context) (record : List String) : Except ImportError Context :=
  match label_index with
  | none => .ok (bumpVertex ctx label_name)
  | some i =>
    match record[i]? with
    | none => .error .indexOutOfBounds
    | some lbl =>
      match registerLabel ctx record lbl with
      | .error e => .error e
      | .ok ctx2 => .ok (bumpVertex ctx2 lbl)

/-- The vertex consumer over a sequence of rows, each given with the file
parameters (label column index and fixed file label) in force for it. -/
def import_vertex_rows : Context → List (Option Nat × String × List String) →
    Except ImportError Context
  | ctx, [] => .ok ctx
  | ctx, (li, ln, r) :: t =>
    match import_vertex_row li ln ctx r with
    | .error e => .error e
    | .ok c2 => import_vertex_rows c2 t

/-- Records that actually reach the consumer, given the csv-level parse result
of each record (none is a malformed record).  The producer of main.rs lines
63-70 runs in a detached spawned task and unwraps each record: at the first
malformed record the task panics, the runtime catches the panic (the join
handle is never awaited), the sender is dropped and the channel closes, so
the consumer simply sees end-of-stream after the preceding records. -/
def deliveredRows : List (Option (List String)) → List (List String)
  | [] => []
  | none :: _ => []
  | some r :: t => r :: deliveredRows t

/-- File-level vertex import (main.rs lines 34-98): consumer-side failures are
fatal, producer-side csv failures only truncate the stream. -/
def import_vertex (label_index : Option Nat) (label_name : String) (ctx : Context)
    (records : List (Option (List String))) : Except ImportError Context :=
  import_vertex_rows ctx ((deliveredRows records).map (fun r => (label_index, label_name, r)))

/-- Inner loop of main.rs lines 166-169: bump the concrete destination and the
destination wildcard. -/
def bumpDst (m : DMap) (dst : String) : DMap := [dst, ""].foldl bumpCount m

def bumpEdgeKey (m : EMap) (k dst : String) : EMap :=
  upsertA m k (fun o => bumpDst (o.getD []) dst)

/-- Middle loop of main.rs lines 164-170: concrete edge label and wildcard. -/
def bumpEdge2 (m : EMap) (edge dst : String) : EMap :=
  [edge, ""].foldl (fun a k => bumpEdgeKey a k dst) m

def bumpSrcKey (m : SMap) (k edge dst : String) : SMap :=
  upsertA m k (fun o => bumpEdge2 (o.getD []) edge dst)

/-- The full 2x2x2 wildcard-lattice increment for one edge row
(main.rs lines 159-171). -/
def importEdgeTriple (m : SMap) (src edge dst : String) : SMap :=
  [src, ""].foldl (fun a k => bumpSrcKey a k edge dst) m

/-- Edge-cardinality accumulation over a sequence of resolved label triples. -/
def accumEdges : SMap → List (String × String × String) → SMap
  | m, [] => m
  | m, (s, e, d) :: t => accumEdges (importEdgeTriple m s e d) t

/-- Endpoint label resolution of main.rs lines 154-157: the file label when the
endpoint is not indirected, otherwise the registry entry for the row id. -/
def resolveEndpoint (m : Option Fam) (fileLabel : String) (ctx : Context) (id : Nat) :
    Option String :=
  match m with
  | none => some fileLabel
  | some f => lookupA (ctx.reg f) id

/-- One iteration of the edge consumer loop (main.rs lines 151-172). -/
def import_edge_row (srcMap dstMap : Option Fam) (labels : String × String × String)
    (ctx : Context) (record : List String) : Except ImportError Context :=
  match record[0]? with
  | none => .error .indexOutOfBounds
  | some s0 =>
    match parseU64 s0 with
    | none => .error .parseIntError
    | some src_id =>
      match record[1]? with
      | none => .error .indexOutOfBounds
      | some s1 =>
        match parseU64 s1 with
        | none => .error .parseIntError
        | some dst_id =>
          match resolveEndpoint srcMap labels.1 ctx src_id with
          | none => .error .unresolvedIdentifier
          | some sl =>
            match resolveEndpoint dstMap labels.2.2 ctx dst_id with
            | none => .error .unresolvedIdentifier
            | some dl =>
              .ok { ctx with statistics := { ctx.statistics with
                edge_cardinality :=
                  importEdgeTriple ctx.statistics.edge_cardinality sl labels.2.1 dl } }

/-- The edge consumer over a sequence of rows of one file. -/
def import_edge_rows (srcMap dstMap : Option Fam) (labels : String × String × String) :
    Context → List (List String) → Except ImportError Context
  | ctx, [] => .ok ctx
  | ctx, r :: t =>
    match import_edge_row srcMap dstMap labels ctx r with
    | .error e => .error e
    | .ok c2 => import_edge_rows srcMap dstMap labels c2 t

/-- One endpoint of the edge header loop (main.rs lines 124-128 and 132-136):
attach the registry matching the declared endpoint label; asserts the slot was
not already attached.  Returns none on assertion failure. -/
def scanEdgeStep (lbl : String) (fam : Option Fam) : Option (Option Fam) :=
  if lbl = "Organisation" then
    match fam with
    | some _ => none
    | none => some (some Fam.organisation)
  else if lbl = "Place" then
    match fam with
    | some _ => none
    | none => some (some Fam.place)
  else some fam

/-- Edge header loop of main.rs lines 117-140: walks the columns with their
index, requires a column typed START_ID at index 0 and END_ID at index 1,
and notes which registry each indirected endpoint resolves through. -/
def scanEdgeHeaderAux (sl dl : String) :
    Nat → Option Fam → Option Fam → List String → Except ImportError (Option Fam × Option Fam)
  | _, sm, dm, [] => .ok (sm, dm)
  | i, sm, dm, s :: rest =>
    match (splitOnChar s ':')[1]? with
    | none => .error .headerError
    | some p =>
      if strStartsWith p "START_ID" then
        if i = 0 then
          match scanEdgeStep sl sm with
          | none => .error .headerError
          | some sm2 => scanEdgeHeaderAux sl dl (i + 1) sm2 dm rest
        else .error .headerError
      else if strStartsWith p "END_ID" then
        if i = 1 then
          match scanEdgeStep dl dm with
          | none => .error .headerError
          | some dm2 => scanEdgeHeaderAux sl dl (i + 1) sm dm2 rest
        else .error .headerError
      else scanEdgeHeaderAux sl dl (i + 1) sm dm rest

def scanEdgeHeader (sl dl : String) (header : List String) :
    Except ImportError (Option Fam × Option Fam) :=
  scanEdgeHeaderAux sl dl 0 none none header

/-- Whether one header column carries the given type marker. -/
def colTypeHasMarker (marker s : String) : Bool :=
  match (splitOnChar s ':')[1]? with
  | none => false
  | some p => strStartsWith p marker

def headerHasMarker (marker : String) (header : List String) : Bool :=
  header.any (colTypeHasMarker marker)

/-- The raw-token to canonical edge name dictionary (main.rs lines 194-213). -/
def resolve_edge_name (name : String) : Option String :=
  if name = "isPartOf" then some "IS_PART_OF"
  else if name = "isSubclassOf" then some "IS_SUBCLASS_OF"
  else if name = "isLocatedIn" then some "IS_LOCATED_IN"
  else if name = "hasType" then some "HAS_TYPE"
  else if name = "hasCreator" then some "HAS_CREATOR"
  else if name = "replyOf" then some "REPLY_OF"
  else if name = "containerOf" then some "CONTAINER_OF"
  else if name = "hasMember" then some "HAS_MEMBER"
  else if name = "hasModerator" then some "HAS_MODERATOR"
  else if name = "hasTag" then some "HAS_TAG"
  else if name = "hasInterest" then some "HAS_INTEREST"
  else if name = "knows" then some "KNOWS"
  else if name = "likes" then some "LIKES"
  else if name = "studyAt" then some "STUDY_AT"
  else if name = "workAt" then some "WORK_AT"
  else none

/-- The raw-token to canonical vertex name dictionary (main.rs lines 215-227). -/
def resolve_vertex_name (name : String) : Option String :=
  if name = "place" then some "Place"
  else if name = "organisation" then some "Organisation"
  else if name = "tagclass" then some "TagClass"
  else if name = "tag" then some "Tag"
  else if name = "comment" then some "Comment"
  else if name = "forum" then some "Forum"
  else if name = "person" then some "Person"
  else if name = "post" then some "Post"
  else none

/-- File-name classification, main.rs lines 182-245.  The argument is the file
name; the first three underscore-separated tokens are indexed unconditionally
before any dictionary lookup (v[0], v[1], v[2] on line 191). -/
def resolve_file_name (name : String) : Except ImportError LabelName :=
  match (splitOnChar name '_')[0]?, (splitOnChar name '_')[1]?, (splitOnChar name '_')[2]? with
  | some s, some e, some d =>
    match resolve_vertex_name s, resolve_edge_name e, resolve_vertex_name d with
    | some a, some b, some c => .ok (.Edge a b c)
    | some a, none, none => .ok (.Vertex a)
    | _, _, _ => .error (.illegalLabelName s e d)
  | _, _, _ => .error .indexOutOfBounds

/-- Sort key of main.rs lines 258-265: the number of underscore-separated
tokens of the file stem (the extension is already stripped by file_stem). -/
def sortKey (stem : String) : Nat := (splitOnChar stem '_').length

/-- Stable insertion keeping earlier-enumerated files before later equal-key
files. -/
def insertByKey (x : String) : List String → List String
  | [] => [x]
  | y :: t => if sortKey x ≤ sortKey y then x :: y :: t else y :: insertByKey x t

/-- Stable sort by sortKey: model of Vec sort_by_cached_key, which is stable. -/
def orderFiles : List String → List String
  | [] => []
  | x :: t => insertByKey x (orderFiles t)

/-- Value of one counter, zero when the entry is absent. -/
def cnt (m : List (String × Nat)) (k : String) : Nat := (lookupA m k).getD 0

def cntE (m : EMap) (b c : String) : Nat := cnt ((lookupA m b).getD []) c

/-- Value of the nested edge counter at (a, b, c). -/
def cntS (m : SMap) (a b c : String) : Nat := cntE ((lookupA m a).getD []) b c

def hasE (m : EMap) (b c : String) : Bool :=
  (lookupA ((lookupA m b).getD []) c).isSome

/-- Whether the nested entry (a, b, c) is present in the edge table. -/
def hasEntry (m : SMap) (a b c : String) : Bool := hasE ((lookupA m a).getD []) b c

/-- The label a vertex row is counted under (main.rs lines 92-93). -/
def rowLabel (r : Option Nat × String × List String) : String :=
  match r.1 with
  | none => r.2.1
  | some i => (r.2.2).getD i ""

def vertexWildcard (m : VMap) : Nat := cnt m ""

/-- Sum of every non-wildcard vertex counter. -/
def vertexConcreteSum : VMap → Nat
  | [] => 0
  | (k, v) :: t => (if k = "" then 0 else v) + vertexConcreteSum t

/-! ### Association-list lemmas -/

theorem lookupA_upsertA_self {α β : Type} [DecidableEq α] (m : List (α × β)) (k : α)
    (f : Option β → β) : lookupA (upsertA m k f) k = some (f (lookupA m k)) := by
  induction m with
  | nil => simp [upsertA, lookupA]
  | cons h t ih =>
    obtain ⟨k0, v0⟩ := h
    by_cases hk : k0 = k
    · subst hk; simp [upsertA, lookupA]
    · simp [upsertA, lookupA, hk, ih]

theorem lookupA_upsertA_ne {α β : Type} [DecidableEq α] (m : List (α × β)) (k a : α)
    (f : Option β → β) (h : a ≠ k) : lookupA (upsertA m k f) a = lookupA m a := by
  induction m with
  | nil => simp [upsertA, lookupA, Ne.symm h]
  | cons hd t ih =>
    obtain ⟨k0, v0⟩ := hd
    by_cases hk : k0 = k
    · subst hk
      simp [upsertA, lookupA, Ne.symm h]
    · by_cases ha : k0 = a <;> simp [upsertA, lookupA, hk, ha, h, ih]

theorem isSome_lookupA_upsertA_mono {α β : Type} [DecidableEq α] {m : List (α × β)} {a : α}
    (k : α) (f : Option β → β) (h : (lookupA m a).isSome = true) :
    (lookupA (upsertA m k f) a).isSome = true := by
  by_cases hk : a = k
  · subst hk; rw [lookupA_upsertA_self]; rfl
  · rw [lookupA_upsertA_ne _ _ _ _ hk]; exact h

/-! ### Counter lemmas, innermost level -/

theorem cnt_bumpCount (m : List (String × Nat)) (k a : String) :
    cnt (bumpCount m k) a = cnt m a + (if a = k then 1 else 0) := by
  by_cases h : a = k
  · subst h; unfold cnt bumpCount; rw [lookupA_upsertA_self]; simp
  · unfold cnt bumpCount; rw [lookupA_upsertA_ne _ _ _ _ h]; simp [h]

theorem isSome_lookupA_bumpCount_self (m : List (String × Nat)) (k : String) :
    (lookupA (bumpCount m k) k).isSome = true := by
  unfold bumpCount; rw [lookupA_upsertA_self]; rfl

theorem cnt_bumpDst {d : String} (hd : d ≠ "") (m : DMap) (a : String) :
    cnt (bumpDst m d) a = cnt m a + (if a = d ∨ a = "" then 1 else 0) := by
  show cnt (bumpCount (bumpCount m d) "") a = _
  rw [cnt_bumpCount, cnt_bumpCount]
  by_cases h1 : a = d
  · subst h1; simp [hd]
  · by_cases h2 : a = ""
    · subst h2; simp [h1]
    · simp [h1, h2]

theorem isSome_lookupA_bumpDst {d a : String} (m : DMap) (h : a = d ∨ a = "") :
    (lookupA (bumpDst m d) a).isSome = true := by
  show (lookupA (bumpCount (bumpCount m d) "") a).isSome = true
  rcases h with h | h
  · subst h
    exact isSome_lookupA_upsertA_mono _ _ (isSome_lookupA_bumpCount_self m a)
  · subst h
    exact isSome_lookupA_bumpCount_self _ ""

theorem isSome_lookupA_bumpDst_mono {a : String} (m : DMap) (d : String)
    (h : (lookupA m a).isSome = true) : (lookupA (bumpDst m d) a).isSome = true := by
  show (lookupA (bumpCount (bumpCount m d) "") a).isSome = true
  exact isSome_lookupA_upsertA_mono _ _ (isSome_lookupA_upsertA_mono _ _ h)

/-! ### Counter lemmas, middle level -/

theorem cntE_bumpEdgeKey {d : String} (hd : d ≠ "") (m : EMap) (k b c : String) :
    cntE (bumpEdgeKey m k d) b c =
      cntE m b c + (if b = k then (if c = d ∨ c = "" then 1 else 0) else 0) := by
  by_cases h : b = k
  · subst h
    unfold cntE bumpEdgeKey
    rw [lookupA_upsertA_self]
    simp only [Option.getD_some]
    rw [cnt_bumpDst hd]
    simp
  · unfold cntE bumpEdgeKey
    rw [lookupA_upsertA_ne _ _ _ _ h]
    simp [h]

theorem cntE_bumpEdge2 {e d : String} (he : e ≠ "") (hd : d ≠ "") (m : EMap) (b c : String) :
    cntE (bumpEdge2 m e d) b c =
      cntE m b c + (if (b = e ∨ b = "") ∧ (c = d ∨ c = "") then 1 else 0) := by
  show cntE (bumpEdgeKey (bumpEdgeKey m e d) "" d) b c = _
  rw [cntE_bumpEdgeKey hd, cntE_bumpEdgeKey hd]
  by_cases h1 : b = e
  · subst h1
    simp only [he, if_false]
    by_cases h2 : c = d ∨ c = "" <;> simp [h2, he]
  · by_cases h2 : b = ""
    · subst h2
      by_cases h3 : c = d ∨ c = "" <;> simp [h1, h3]
    · simp [h1, h2]

theorem hasE_bumpEdgeKey_mono {b c : String} (m : EMap) (k d : String)
    (h : hasE m b c = true) : hasE (bumpEdgeKey m k d) b c = true := by
  by_cases hk : b = k
  · subst hk
    unfold hasE bumpEdgeKey at *
    rw [lookupA_upsertA_self]
    simp only [Option.getD_some]
    exact isSome_lookupA_bumpDst_mono _ _ h
  · unfold hasE bumpEdgeKey at *
    rw [lookupA_upsertA_ne _ _ _ _ hk]
    exact h

theorem hasE_bumpEdge2_mono {b c : String} (m : EMap) (e d : String)
    (h : hasE m b c = true) : hasE (bumpEdge2 m e d) b c = true := by
  show hasE (bumpEdgeKey (bumpEdgeKey m e d) "" d) b c = true
  exact hasE_bumpEdgeKey_mono _ _ _ (hasE_bumpEdgeKey_mono _ _ _ h)

theorem hasE_bumpEdge2_self {e d b c : String} (m : EMap)
    (hb : b = e ∨ b = "") (hc : c = d ∨ c = "") : hasE (bumpEdge2 m e d) b c = true := by
  show hasE (bumpEdgeKey (bumpEdgeKey m e d) "" d) b c = true
  by_cases h0 : b = ""
  · subst h0
    unfold hasE bumpEdgeKey
    rw [lookupA_upsertA_self]
    simp only [Option.getD_some]
    exact isSome_lookupA_bumpDst _ hc
  · have hb2 : b = e := by tauto
    subst hb2
    unfold hasE bumpEdgeKey
    rw [lookupA_upsertA_ne _ _ _ _ h0, lookupA_upsertA_self]
    simp only [Option.getD_some]
    exact isSome_lookupA_bumpDst _ hc

/-! ### Counter lemmas, outer level -/

theorem cntS_bumpSrcKey {e d : String} (he : e ≠ "") (hd : d ≠ "") (m : SMap) (k a b c : String) :
    cntS (bumpSrcKey m k e d) a b c =
      cntS m a b c +
        (if a = k then (if (b = e ∨ b = "") ∧ (c = d ∨ c = "") then 1 else 0) else 0) := by
  by_cases h : a = k
  · subst h
    unfold cntS bumpSrcKey
    rw [lookupA_upsertA_self]
    simp only [Option.getD_some]
    rw [cntE_bumpEdge2 he hd]
    simp
  · unfold cntS bumpSrcKey
    rw [lookupA_upsertA_ne _ _ _ _ h]
    simp [h]

theorem cntS_importEdgeTriple {s e d : String} (hs : s ≠ "") (he : e ≠ "") (hd : d ≠ "")
    (m : SMap) (a b c : String) :
    cntS (importEdgeTriple m s e d) a b c =
      cntS m a b c +
        (if (a = s ∨ a = "") ∧ (b = e ∨ b = "") ∧ (c = d ∨ c = "") then 1 else 0) := by
  show cntS (bumpSrcKey (bumpSrcKey m s e d) "" e d) a b c = _
  rw [cntS_bumpSrcKey he hd, cntS_bumpSrcKey he hd]
  by_cases h1 : a = s
  · subst h1
    simp only [hs, if_false]
    by_cases h2 : (b = e ∨ b = "") ∧ (c = d ∨ c = "") <;> simp [h2, hs]
  · by_cases h2 : a = ""
    · subst h2
      by_cases h3 : (b = e ∨ b = "") ∧ (c = d ∨ c = "") <;> simp [h1, h3]
    · simp [h1, h2]

theorem hasEntry_bumpSrcKey_mono {a b c : String} (m : SMap) (k e d : String)
    (h : hasEntry m a b c = true) : hasEntry (bumpSrcKey m k e d) a b c = true := by
  by_cases hk : a = k
  · subst hk
    unfold hasEntry bumpSrcKey at *
    rw [lookupA_upsertA_self]
    simp only [Option.getD_some]
    exact hasE_bumpEdge2_mono _ _ _ h
  · unfold hasEntry bumpSrcKey at *
    rw [lookupA_upsertA_ne _ _ _ _ hk]
    exact h

theorem hasEntry_importEdgeTriple_mono {a b c : String} (m : SMap) (s e d : String)
    (h : hasEntry m a b c = true) : hasEntry (importEdgeTriple m s e d) a b c = true := by
  show hasEntry (bumpSrcKey (bumpSrcKey m s e d) "" e d) a b c = true
  exact hasEntry_bumpSrcKey_mono _ _ _ _ (hasEntry_bumpSrcKey_mono _ _ _ _ h)

theorem hasEntry_importEdgeTriple_self {s e d a b c : String} (m : SMap)
    (ha : a = s ∨ a = "") (hb : b = e ∨ b = "") (hc : c = d ∨ c = "") :
    hasEntry (importEdgeTriple m s e d) a b c = true := by
  show hasEntry (bumpSrcKey (bumpSrcKey m s e d) "" e d) a b c = true
  by_cases h0 : a = ""
  · subst h0
    unfold hasEntry bumpSrcKey
    rw [lookupA_upsertA_self]
    simp only [Option.getD_some]
    exact hasE_bumpEdge2_self _ hb hc
  · have ha2 : a = s := by tauto
    subst ha2
    unfold hasEntry bumpSrcKey
    rw [lookupA_upsertA_ne _ _ _ _ h0, lookupA_upsertA_self]
    simp only [Option.getD_some]
    exact hasE_bumpEdge2_self _ hb hc

/-! ### Run-level accumulation lemmas -/

theorem hasEntry_accumEdges_mono {a b c : String} (ts : List (String × String × String))
    (m : SMap) (h : hasEntry m a b c = true) : hasEntry (accumEdges m ts) a b c = true := by
  induction ts generalizing m with
  | nil => exact h
  | cons t rest ih =>
    obtain ⟨s, e, d⟩ := t
    exact ih _ (hasEntry_importEdgeTriple_mono _ _ _ _ h)

theorem hasEntry_accumEdges_of_mem {a b c : String} (ts : List (String × String × String))
    (m : SMap) (t : String × String × String)
    (ha : a = t.1 ∨ a = "") (hb : b = t.2.1 ∨ b = "") (hc : c = t.2.2 ∨ c = "") :
    t ∈ ts → hasEntry (accumEdges m ts) a b c = true := by
  induction ts generalizing m with
  | nil => intro ht; cases ht
  | cons t0 rest ih =>
    intro ht
    obtain ⟨s, e, d⟩ := t0
    show hasEntry (accumEdges (importEdgeTriple m s e d) rest) a b c = true
    rcases List.mem_cons.mp ht with h | h
    · subst h
      exact hasEntry_accumEdges_mono rest _ (hasEntry_importEdgeTriple_self m ha hb hc)
    · exact ih _ h

theorem cntS_accumEdges_wildcard (ts : List (String × String × String)) (m : SMap)
    (h : ∀ t ∈ ts, t.1 ≠ "" ∧ t.2.1 ≠ "" ∧ t.2.2 ≠ "") :
    cntS (accumEdges m ts) "" "" "" = cntS m "" "" "" + ts.length := by
  induction ts generalizing m with
  | nil => simp [accumEdges]
  | cons t rest ih =>
    obtain ⟨s, e, d⟩ := t
    obtain ⟨hs, he, hd⟩ := h (s, e, d) (List.mem_cons_self _ _)
    have hrest : ∀ t ∈ rest, t.1 ≠ "" ∧ t.2.1 ≠ "" ∧ t.2.2 ≠ "" :=
      fun t ht => h t (List.mem_cons_of_mem _ ht)
    show cntS (accumEdges (importEdgeTriple m s e d) rest) "" "" "" = _
    rw [ih _ hrest, cntS_importEdgeTriple hs he hd]
    simp [List.length_cons]
    omega

/-! ### Vertex-side helper lemmas -/

theorem lookupA_cons_self {α β : Type} [DecidableEq α] (k : α) (v : β) (t : List (α × β)) :
    lookupA ((k, v) :: t) k = some v := by simp [lookupA]

theorem familyPlace_cases {l : String} (h : familyPlace l = true) :
    l = "City" ∨ l = "Country" ∨ l = "Continent" := by
  simp only [familyPlace, Bool.or_eq_true, beq_iff_eq] at h
  tauto

theorem familyOrganisation_cases {l : String} (h : familyOrganisation l = true) :
    l = "University" ∨ l = "Company" := by
  simp only [familyOrganisation, Bool.or_eq_true, beq_iff_eq] at h
  tauto

theorem familyPlace_not_organisation {l : String} (h : familyPlace l = true) :
    familyOrganisation l = false := by
  rcases familyPlace_cases h with h | h | h <;> subst h <;> decide

theorem familyOrganisation_not_place {l : String} (h : familyOrganisation l = true) :
    familyPlace l = false := by
  rcases familyOrganisation_cases h with h | h <;> subst h <;> decide

theorem resolve_vertex_name_not_family {n l : String} (h : resolve_vertex_name n = some l) :
    familyPlace l = false ∧ familyOrganisation l = false := by
  unfold resolve_vertex_name at h
  split_ifs at h <;> cases h <;> decide

theorem regLabel_place_dup {ctx : Context} {rec : List String} {lbl s : String} {id : Nat}
    {w : String} (hp : familyPlace lbl = true) (h2 : rec[0]? = some s)
    (h3 : parseU64 s = some id) (h4 : lookupA ctx.place id = some w) :
    registerLabel ctx rec lbl = .error .duplicateIdentifier := by
  simp [registerLabel, hp, h2, h3, h4]

theorem regLabel_org_dup {ctx : Context} {rec : List String} {lbl s : String} {id : Nat}
    {w : String} (hp : familyPlace lbl = false) (ho : familyOrganisation lbl = true)
    (h2 : rec[0]? = some s) (h3 : parseU64 s = some id)
    (h4 : lookupA ctx.organisation id = some w) :
    registerLabel ctx rec lbl = .error .duplicateIdentifier := by
  simp [registerLabel, hp, ho, h2, h3, h4]

theorem registerLabel_ok_inv {ctx : Context} {rec : List String} {lbl : String} {c : Context}
    (h : registerLabel ctx rec lbl = .ok c) :
    c.statistics = ctx.statistics ∧
    (familyPlace lbl = true →
      ∃ s id, rec[0]? = some s ∧ parseU64 s = some id ∧ lookupA ctx.place id = none ∧
        c.place = (id, lbl) :: ctx.place ∧ c.organisation = ctx.organisation) ∧
    (familyOrganisation lbl = true →
      ∃ s id, rec[0]? = some s ∧ parseU64 s = some id ∧ lookupA ctx.organisation id = none ∧
        c.organisation = (id, lbl) :: ctx.organisation ∧ c.place = ctx.place) ∧
    (familyPlace lbl = false → familyOrganisation lbl = false → c = ctx) := by
  cases hp : familyPlace lbl with
  | true =>
    have ho := familyPlace_not_organisation hp
    simp only [registerLabel, hp, if_true] at h
    rcases h0 : rec[0]? with _ | s
    · simp only [h0] at h; simp at h
    · simp only [h0] at h
      rcases h1 : parseU64 s with _ | id
      · simp only [h1] at h; simp at h
      · simp only [h1] at h
        rcases h2 : lookupA ctx.place id with _ | w
        · simp only [h2, Except.ok.injEq] at h
          subst h
          refine ⟨rfl, fun _ => ⟨s, id, rfl, h1, h2, rfl, rfl⟩, ?_, ?_⟩
          · intro hoo; rw [ho] at hoo; cases hoo
          · intro hpf; simp at hpf
        · simp only [h2] at h; simp at h
  | false =>
    cases ho : familyOrganisation lbl with
    | true =>
      simp only [registerLabel, hp, ho, Bool.false_eq_true, if_false, if_true] at h
      rcases h0 : rec[0]? with _ | s
      · simp only [h0] at h; simp at h
      · simp only [h0] at h
        rcases h1 : parseU64 s with _ | id
        · simp only [h1] at h; simp at h
        · simp only [h1] at h
          rcases h2 : lookupA ctx.organisation id with _ | w
          · simp only [h2, Except.ok.injEq] at h
            subst h
            refine ⟨rfl, ?_, fun _ => ⟨s, id, rfl, h1, h2, rfl, rfl⟩, ?_⟩
            · intro hpp; simp at hpp
            · intro _ hof; simp at hof
          · simp only [h2] at h; simp at h
    | false =>
      simp only [registerLabel, hp, ho, Bool.false_eq_true, if_false, Except.ok.injEq] at h
      subst h
      refine ⟨rfl, ?_, ?_, fun _ _ => rfl⟩
      · intro hpp; simp at hpp
      · intro hoo; simp at hoo

theorem bumpVertex_vc (ctx : Context) (l : String) :
    (bumpVertex ctx l).statistics.vertex_cardinality =
      bumpCount (bumpCount ctx.statistics.vertex_cardinality l) "" := rfl

theorem bumpVertex_ec (ctx : Context) (l : String) :
    (bumpVertex ctx l).statistics.edge_cardinality = ctx.statistics.edge_cardinality := rfl

theorem bumpVertex_place (ctx : Context) (l : String) :
    (bumpVertex ctx l).place = ctx.place := rfl

theorem bumpVertex_organisation (ctx : Context) (l : String) :
    (bumpVertex ctx l).organisation = ctx.organisation := rfl

theorem import_vertex_row_none_ok {ln : String} {ctx : Context} {rec : List String}
    {c : Context} (h : import_vertex_row none ln ctx rec = .ok c) : c = bumpVertex ctx ln := by
  simp only [import_vertex_row, Except.ok.injEq] at h
  exact h.symm

theorem import_vertex_row_some_ok {i : Nat} {ln : String} {ctx : Context} {rec : List String}
    {c : Context} (h : import_vertex_row (some i) ln ctx rec = .ok c) :
    ∃ lbl c2, rec[i]? = some lbl ∧ registerLabel ctx rec lbl = .ok c2 ∧ c = bumpVertex c2 lbl := by
  simp only [import_vertex_row] at h
  rcases h0 : rec[i]? with _ | lbl
  · simp only [h0] at h; simp at h
  · simp only [h0] at h
    rcases h1 : registerLabel ctx rec lbl with e | c2
    · simp only [h1] at h; simp at h
    · simp only [h1, Except.ok.injEq] at h
      exact ⟨lbl, c2, rfl, h1, h.symm⟩

theorem rowLabel_some {i : Nat} {ln : String} {rec : List String} {lbl : String}
    (h : rec[i]? = some lbl) : rowLabel (some i, ln, rec) = lbl := by
  simp [rowLabel, List.getD, List.get?_eq_getElem?, h]

theorem import_vertex_row_ok_vc {li : Option Nat} {ln : String} {ctx : Context}
    {rec : List String} {c : Context} (h : import_vertex_row li ln ctx rec = .ok c) :
    c.statistics.vertex_cardinality =
      bumpCount (bumpCount ctx.statistics.vertex_cardinality (rowLabel (li, ln, rec))) "" := by
  cases li with
  | none => rw [import_vertex_row_none_ok h]; rfl
  | some i =>
    obtain ⟨lbl, c2, h0, h1, h2⟩ := import_vertex_row_some_ok h
    subst h2
    have hs := (registerLabel_ok_inv h1).1
    rw [bumpVertex_vc, hs, rowLabel_some h0]

theorem import_vertex_row_ok_ec {li : Option Nat} {ln : String} {ctx : Context}
    {rec : List String} {c : Context} (h : import_vertex_row li ln ctx rec = .ok c) :
    c.statistics.edge_cardinality = ctx.statistics.edge_cardinality := by
  cases li with
  | none => rw [import_vertex_row_none_ok h]; rfl
  | some i =>
    obtain ⟨lbl, c2, _, h1, h2⟩ := import_vertex_row_some_ok h
    subst h2
    rw [bumpVertex_ec, (registerLabel_ok_inv h1).1]

theorem vertexConcreteSum_bumpCount (m : VMap) (k : String) :
    vertexConcreteSum (bumpCount m k) = vertexConcreteSum m + (if k = "" then 0 else 1) := by
  induction m with
  | nil => by_cases hk : k = "" <;> simp [bumpCount, upsertA, vertexConcreteSum, hk]
  | cons hd t ih =>
    obtain ⟨k0, v⟩ := hd
    by_cases hk : k0 = k
    · rw [hk]
      have hb : bumpCount ((k, v) :: t) k = (k, v + 1) :: t := by
        simp [bumpCount, upsertA]
      rw [hb]
      by_cases h0 : k = "" <;> simp [vertexConcreteSum, h0] <;> omega
    · have hb : bumpCount ((k0, v) :: t) k = (k0, v) :: bumpCount t k := by
        simp [bumpCount, upsertA, hk]
      rw [hb]
      show (if k0 = "" then 0 else v) + vertexConcreteSum (bumpCount t k) = _
      rw [ih]
      by_cases h0 : k0 = "" <;> by_cases hke : k = "" <;>
        simp [vertexConcreteSum, h0, hke] <;> omega

theorem import_vertex_row_registers {f : Fam} {i : Nat} {ln : String} {ctx : Context}
    {rec : List String} {c : Context} {lbl s : String} {id : Nat}
    (h0 : rec[i]? = some lbl) (h1 : famCheck f lbl = true)
    (h2 : rec[0]? = some s) (h3 : parseU64 s = some id)
    (h : import_vertex_row (some i) ln ctx rec = .ok c) :
    lookupA (c.reg f) id = some lbl := by
  obtain ⟨lbl2, c2, g0, g1, g2⟩ := import_vertex_row_some_ok h
  rw [h0] at g0
  injection g0 with g0
  subst g0
  subst g2
  have inv := registerLabel_ok_inv g1
  cases f with
  | place =>
    obtain ⟨s2, id2, e0, e1, e2, e3, e4⟩ := inv.2.1 h1
    rw [h2] at e0
    injection e0 with e0
    subst e0
    rw [h3] at e1
    injection e1 with e1
    subst e1
    show lookupA (bumpVertex c2 lbl).place id = some lbl
    rw [bumpVertex_place, e3]
    exact lookupA_cons_self _ _ _
  | organisation =>
    obtain ⟨s2, id2, e0, e1, e2, e3, e4⟩ := inv.2.2.1 h1
    rw [h2] at e0
    injection e0 with e0
    subst e0
    rw [h3] at e1
    injection e1 with e1
    subst e1
    show lookupA (bumpVertex c2 lbl).organisation id = some lbl
    rw [bumpVertex_organisation, e3]
    exact lookupA_cons_self _ _ _

theorem import_vertex_row_dup {f : Fam} {j : Nat} {ln : String} {ctx : Context}
    {rec : List String} {lbl s : String} {id : Nat} {w : String}
    (h0 : rec[j]? = some lbl) (h1 : famCheck f lbl = true)
    (h2 : rec[0]? = some s) (h3 : parseU64 s = some id)
    (h4 : lookupA (ctx.reg f) id = some w) :
    import_vertex_row (some j) ln ctx rec = .error .duplicateIdentifier := by
  cases f with
  | place =>
    have hr := regLabel_place_dup h1 h2 h3 h4
    simp [import_vertex_row, h0, hr]
  | organisation =>
    have hr := regLabel_org_dup (familyOrganisation_not_place h1) h1 h2 h3 h4
    simp [import_vertex_row, h0, hr]

theorem vertexInvariant_step {m : VMap} {l : String} (hl : l ≠ "")
    (hinv : vertexWildcard m = vertexConcreteSum m) :
    vertexWildcard (bumpCount (bumpCount m l) "") =
      vertexConcreteSum (bumpCount (bumpCount m l) "") := by
  unfold vertexWildcard at *
  rw [cnt_bumpCount, cnt_bumpCount, vertexConcreteSum_bumpCount, vertexConcreteSum_bumpCount]
  have hne : ¬ ("" = l) := fun hh => hl hh.symm
  simp [hne, hl, hinv]

theorem import_vertex_rows_inv (rows : List (Option Nat × String × List String)) :
    ∀ ctx c, (∀ r ∈ rows, rowLabel r ≠ "") →
    vertexWildcard ctx.statistics.vertex_cardinality =
      vertexConcreteSum ctx.statistics.vertex_cardinality →
    import_vertex_rows ctx rows = .ok c →
    vertexWildcard c.statistics.vertex_cardinality =
      vertexConcreteSum c.statistics.vertex_cardinality := by
  induction rows with
  | nil =>
    intro ctx c _ hinv h
    simp only [import_vertex_rows, Except.ok.injEq] at h
    subst h
    exact hinv
  | cons r rest ih =>
    intro ctx c hl hinv h
    obtain ⟨li, ln, rec⟩ := r
    simp only [import_vertex_rows] at h
    rcases h0 : import_vertex_row li ln ctx rec with e | c2
    · simp only [h0] at h; simp at h
    · simp only [h0] at h
      refine ih c2 c (fun r hr => hl r (List.mem_cons_of_mem _ hr)) ?_ h
      have hvc := import_vertex_row_ok_vc h0
      have hlbl : rowLabel (li, ln, rec) ≠ "" := hl _ (List.mem_cons_self _ _)
      rw [hvc]
      exact vertexInvariant_step hlbl hinv

theorem import_vertex_rows_ec (rows : List (Option Nat × String × List String)) :
    ∀ ctx c, import_vertex_rows ctx rows = .ok c →
    c.statistics.edge_cardinality = ctx.statistics.edge_cardinality := by
  induction rows with
  | nil =>
    intro ctx c h
    simp only [import_vertex_rows, Except.ok.injEq] at h
    subst h
    rfl
  | cons r rest ih =>
    intro ctx c h
    obtain ⟨li, ln, rec⟩ := r
    simp only [import_vertex_rows] at h
    rcases h0 : import_vertex_row li ln ctx rec with e | c2
    · simp only [h0] at h; simp at h
    · simp only [h0] at h
      rw [ih c2 c h, import_vertex_row_ok_ec h0]

/-! ### Edge-row helper lemmas -/

theorem import_edge_row_ok_inv {sm dm : Option Fam} {L : String × String × String}
    {ctx : Context} {rec : List String} {c : Context}
    (h : import_edge_row sm dm L ctx rec = .ok c) :
    ∃ s0 i0 s1 i1 sl dl, rec[0]? = some s0 ∧ parseU64 s0 = some i0 ∧
      rec[1]? = some s1 ∧ parseU64 s1 = some i1 ∧
      resolveEndpoint sm L.1 ctx i0 = some sl ∧ resolveEndpoint dm L.2.2 ctx i1 = some dl ∧
      c = { ctx with statistics := { ctx.statistics with
              edge_cardinality :=
                importEdgeTriple ctx.statistics.edge_cardinality sl L.2.1 dl } } := by
  simp only [import_edge_row] at h
  rcases h0 : rec[0]? with _ | s0
  · simp only [h0] at h; simp at h
  · simp only [h0] at h
    rcases h1 : parseU64 s0 with _ | i0
    · simp only [h1] at h; simp at h
    · simp only [h1] at h
      rcases h2 : rec[1]? with _ | s1
      · simp only [h2] at h; simp at h
      · simp only [h2] at h
        rcases h3 : parseU64 s1 with _ | i1
        · simp only [h3] at h; simp at h
        · simp only [h3] at h
          rcases h4 : resolveEndpoint sm L.1 ctx i0 with _ | sl
          · simp only [h4] at h; simp at h
          · simp only [h4] at h
            rcases h5 : resolveEndpoint dm L.2.2 ctx i1 with _ | dl
            · simp only [h5] at h; simp at h
            · simp only [h5, Except.ok.injEq] at h
              exact ⟨s0, i0, s1, i1, sl, dl, rfl, h1, rfl, h3, h4, h5, h.symm⟩

theorem import_edge_row_src_unresolved {sm dm : Option Fam} {L : String × String × String}
    {ctx : Context} {rec : List String} {s0 s1 : String} {i0 i1 : Nat} {f : Fam}
    (h0 : rec[0]? = some s0) (h1 : parseU64 s0 = some i0)
    (h2 : rec[1]? = some s1) (h3 : parseU64 s1 = some i1)
    (hf : sm = some f) (h4 : lookupA (ctx.reg f) i0 = none) :
    import_edge_row sm dm L ctx rec = .error .unresolvedIdentifier := by
  subst hf
  have hres : resolveEndpoint (some f) L.1 ctx i0 = none := h4
  simp [import_edge_row, h0, h1, h2, h3, hres]

theorem import_edge_row_dst_unresolved {sm dm : Option Fam} {L : String × String × String}
    {ctx : Context} {rec : List String} {s0 s1 sl : String} {i0 i1 : Nat} {f : Fam}
    (h0 : rec[0]? = some s0) (h1 : parseU64 s0 = some i0)
    (h2 : rec[1]? = some s1) (h3 : parseU64 s1 = some i1)
    (hsl : resolveEndpoint sm L.1 ctx i0 = some sl)
    (hf : dm = some f) (h4 : lookupA (ctx.reg f) i1 = none) :
    import_edge_row sm dm L ctx rec = .error .unresolvedIdentifier := by
  subst hf
  have hres : resolveEndpoint (some f) L.2.2 ctx i1 = none := h4
  simp [import_edge_row, h0, h1, h2, h3, hsl, hres]

theorem import_edge_rows_frame {sm dm : Option Fam} {L : String × String × String}
    (rows : List (List String)) : ∀ ctx c, import_edge_rows sm dm L ctx rows = .ok c →
    c.statistics.vertex_cardinality = ctx.statistics.vertex_cardinality ∧
    c.place = ctx.place ∧ c.organisation = ctx.organisation := by
  induction rows with
  | nil =>
    intro ctx c h
    simp only [import_edge_rows, Except.ok.injEq] at h
    subst h
    exact ⟨rfl, rfl, rfl⟩
  | cons r rest ih =>
    intro ctx c h
    simp only [import_edge_rows] at h
    rcases h0 : import_edge_row sm dm L ctx r with e | c2
    · simp only [h0] at h; simp at h
    · simp only [h0] at h
      obtain ⟨_, _, _, _, _, _, _, _, _, _, _, _, hc⟩ := import_edge_row_ok_inv h0
      subst hc
      obtain ⟨a1, a2, a3⟩ := ih _ _ h
      exact ⟨a1, a2, a3⟩

/-! ### Edge header scan lemmas -/

theorem end_not_start {p : String} (h : strStartsWith p "END_ID" = true) :
    strStartsWith p "START_ID" = false := by
  unfold strStartsWith at *
  rcases hp : p.data with _ | ⟨c, t⟩
  · rw [hp] at h
    exact absurd h (by decide)
  · rw [hp] at h
    have he : "END_ID".data = 'E' :: "ND_ID".data := rfl
    rw [he] at h
    simp only [List.isPrefixOf, Bool.and_eq_true, beq_iff_eq] at h
    obtain ⟨hc, _⟩ := h
    subst hc
    have hs : "START_ID".data = 'S' :: "TART_ID".data := rfl
    rw [hs]
    have hb : (('S' : Char) == 'E') = false := by decide
    simp [List.isPrefixOf, hb]

theorem scanEdgeStep_some_preserve {sl : String} {f : Fam} {fam2 : Option Fam}
    (h : scanEdgeStep sl (some f) = some fam2) : fam2 = some f := by
  unfold scanEdgeStep at h
  split_ifs at h <;> simp_all

theorem scanEdgeStep_org {fam fam2 : Option Fam}
    (h : scanEdgeStep "Organisation" fam = some fam2) : fam2 = some Fam.organisation := by
  rcases fam with _ | g
  · unfold scanEdgeStep at h
    rw [if_pos rfl] at h
    injection h with h
    exact h.symm
  · unfold scanEdgeStep at h
    rw [if_pos rfl] at h
    exact Option.noConfusion h

theorem scanEdgeStep_place {fam fam2 : Option Fam}
    (h : scanEdgeStep "Place" fam = some fam2) : fam2 = some Fam.place := by
  have hno : ("Place" : String) ≠ "Organisation" := by decide
  rcases fam with _ | g
  · unfold scanEdgeStep at h
    rw [if_neg hno, if_pos rfl] at h
    injection h with h
    exact h.symm
  · unfold scanEdgeStep at h
    rw [if_neg hno, if_pos rfl] at h
    exact Option.noConfusion h

theorem scanEdgeStep_sound {sl : String} {sm sm3 : Option Fam} {f : Fam}
    (hstep : scanEdgeStep sl sm = some sm3) (hf : sm3 = some f) :
    sm = some f ∨ (f = Fam.organisation ∧ sl = "Organisation") ∨
      (f = Fam.place ∧ sl = "Place") := by
  unfold scanEdgeStep at hstep
  by_cases h1 : sl = "Organisation"
  · rw [if_pos h1] at hstep
    rcases sm with _ | g
    · injection hstep with hstep
      right; left
      rw [← hstep] at hf
      injection hf with hf
      exact ⟨hf.symm, h1⟩
    · exact Option.noConfusion hstep
  · rw [if_neg h1] at hstep
    by_cases h2 : sl = "Place"
    · rw [if_pos h2] at hstep
      rcases sm with _ | g
      · injection hstep with hstep
        right; right
        rw [← hstep] at hf
        injection hf with hf
        exact ⟨hf.symm, h2⟩
      · exact Option.noConfusion hstep
    · rw [if_neg h2] at hstep
      injection hstep with hstep
      left
      rw [hstep, hf]

theorem scanAux_preserve (sl dl : String) (hs : List String) :
    ∀ (i : Nat) (sm dm sm2 dm2 : Option Fam),
      scanEdgeHeaderAux sl dl i sm dm hs = .ok (sm2, dm2) →
      (∀ f, sm = some f → sm2 = some f) ∧ (∀ g, dm = some g → dm2 = some g) := by
  induction hs with
  | nil =>
    intro i sm dm sm2 dm2 h
    simp only [scanEdgeHeaderAux, Except.ok.injEq, Prod.mk.injEq] at h
    obtain ⟨h1, h2⟩ := h
    subst h1; subst h2
    exact ⟨fun f hf => hf, fun g hg => hg⟩
  | cons s rest ih =>
    intro i sm dm sm2 dm2 h
    simp only [scanEdgeHeaderAux] at h
    rcases hp : (splitOnChar s ':')[1]? with _ | p
    · simp only [hp] at h; simp at h
    · simp only [hp] at h
      by_cases hS : strStartsWith p "START_ID" = true
      · rw [if_pos hS] at h
        by_cases hi : i = 0
        · rw [if_pos hi] at h
          rcases hstep : scanEdgeStep sl sm with _ | sm3
          · simp only [hstep] at h; simp at h
          · simp only [hstep] at h
            obtain ⟨ha, hb⟩ := ih (i + 1) sm3 dm sm2 dm2 h
            refine ⟨fun f hf => ?_, hb⟩
            subst hf
            exact ha f (scanEdgeStep_some_preserve hstep)
        · rw [if_neg hi] at h; simp at h
      · rw [if_neg hS] at h
        by_cases hE : strStartsWith p "END_ID" = true
        · rw [if_pos hE] at h
          by_cases hi : i = 1
          · rw [if_pos hi] at h
            rcases hstep : scanEdgeStep dl dm with _ | dm3
            · simp only [hstep] at h; simp at h
            · simp only [hstep] at h
              obtain ⟨ha, hb⟩ := ih (i + 1) sm dm3 sm2 dm2 h
              refine ⟨ha, fun g hg => ?_⟩
              subst hg
              exact hb g (scanEdgeStep_some_preserve hstep)
          · rw [if_neg hi] at h; simp at h
        · rw [if_neg hE] at h
          exact ih (i + 1) sm dm sm2 dm2 h

theorem scanAux_sound (sl dl : String) (hs : List String) :
    ∀ (i : Nat) (sm dm sm2 dm2 : Option Fam),
      scanEdgeHeaderAux sl dl i sm dm hs = .ok (sm2, dm2) →
      (∀ f, sm2 = some f → sm = some f ∨ (f = Fam.organisation ∧ sl = "Organisation") ∨
        (f = Fam.place ∧ sl = "Place")) ∧
      (∀ g, dm2 = some g → dm = some g ∨ (g = Fam.organisation ∧ dl = "Organisation") ∨
        (g = Fam.place ∧ dl = "Place")) := by
  induction hs with
  | nil =>
    intro i sm dm sm2 dm2 h
    simp only [scanEdgeHeaderAux, Except.ok.injEq, Prod.mk.injEq] at h
    obtain ⟨h1, h2⟩ := h
    subst h1; subst h2
    exact ⟨fun f hf => Or.inl hf, fun g hg => Or.inl hg⟩
  | cons s rest ih =>
    intro i sm dm sm2 dm2 h
    simp only [scanEdgeHeaderAux] at h
    rcases hp : (splitOnChar s ':')[1]? with _ | p
    · simp only [hp] at h; simp at h
    · simp only [hp] at h
      by_cases hS : strStartsWith p "START_ID" = true
      · rw [if_pos hS] at h
        by_cases hi : i = 0
        · rw [if_pos hi] at h
          rcases hstep : scanEdgeStep sl sm with _ | sm3
          · simp only [hstep] at h; simp at h
          · simp only [hstep] at h
            obtain ⟨ha, hb⟩ := ih (i + 1) sm3 dm sm2 dm2 h
            refine ⟨fun f hf => ?_, hb⟩
            rcases ha f hf with h3 | h3 | h3
            · exact scanEdgeStep_sound hstep h3
            · exact Or.inr (Or.inl h3)
            · exact Or.inr (Or.inr h3)
        · rw [if_neg hi] at h; simp at h
      · rw [if_neg hS] at h
        by_cases hE : strStartsWith p "END_ID" = true
        · rw [if_pos hE] at h
          by_cases hi : i = 1
          · rw [if_pos hi] at h
            rcases hstep : scanEdgeStep dl dm with _ | dm3
            · simp only [hstep] at h; simp at h
            · simp only [hstep] at h
              obtain ⟨ha, hb⟩ := ih (i + 1) sm dm3 sm2 dm2 h
              refine ⟨ha, fun g hg => ?_⟩
              rcases hb g hg with h3 | h3 | h3
              · exact scanEdgeStep_sound hstep h3
              · exact Or.inr (Or.inl h3)
              · exact Or.inr (Or.inr h3)
          · rw [if_neg hi] at h; simp at h
        · rw [if_neg hE] at h
          exact ih (i + 1) sm dm sm2 dm2 h

theorem scanAux_complete_src (sl dl : String) (hs : List String) :
    ∀ (i : Nat) (sm dm sm2 dm2 : Option Fam),
      scanEdgeHeaderAux sl dl i sm dm hs = .ok (sm2, dm2) →
      headerHasMarker "START_ID" hs = true →
      (sl = "Organisation" → sm2 = some Fam.organisation) ∧
      (sl = "Place" → sm2 = some Fam.place) := by
  induction hs with
  | nil =>
    intro i sm dm sm2 dm2 _ hm
    simp [headerHasMarker] at hm
  | cons s rest ih =>
    intro i sm dm sm2 dm2 h hm
    simp only [headerHasMarker, List.any_cons, Bool.or_eq_true] at hm
    simp only [scanEdgeHeaderAux] at h
    rcases hp : (splitOnChar s ':')[1]? with _ | p
    · simp only [hp] at h; simp at h
    · simp only [hp] at h
      by_cases hS : strStartsWith p "START_ID" = true
      · rw [if_pos hS] at h
        by_cases hi : i = 0
        · rw [if_pos hi] at h
          rcases hstep : scanEdgeStep sl sm with _ | sm3
          · simp only [hstep] at h; simp at h
          · simp only [hstep] at h
            have hpr := scanAux_preserve sl dl rest (i + 1) sm3 dm sm2 dm2 h
            constructor
            · intro hOrg
              subst hOrg
              exact hpr.1 _ (scanEdgeStep_org hstep)
            · intro hPlace
              subst hPlace
              exact hpr.1 _ (scanEdgeStep_place hstep)
        · rw [if_neg hi] at h; simp at h
      · have hmr : headerHasMarker "START_ID" rest = true := by
          rcases hm with hm | hm
          · exfalso
            simp only [colTypeHasMarker, hp] at hm
            exact hS hm
          · exact hm
        rw [if_neg hS] at h
        by_cases hE : strStartsWith p "END_ID" = true
        · rw [if_pos hE] at h
          by_cases hi : i = 1
          · rw [if_pos hi] at h
            rcases hstep : scanEdgeStep dl dm with _ | dm3
            · simp only [hstep] at h; simp at h
            · simp only [hstep] at h
              exact ih (i + 1) sm dm3 sm2 dm2 h hmr
          · rw [if_neg hi] at h; simp at h
        · rw [if_neg hE] at h
          exact ih (i + 1) sm dm sm2 dm2 h hmr

theorem scanAux_complete_dst (sl dl : String) (hs : List String) :
    ∀ (i : Nat) (sm dm sm2 dm2 : Option Fam),
      scanEdgeHeaderAux sl dl i sm dm hs = .ok (sm2, dm2) →
      headerHasMarker "END_ID" hs = true →
      (dl = "Organisation" → dm2 = some Fam.organisation) ∧
      (dl = "Place" → dm2 = some Fam.place) := by
  induction hs with
  | nil =>
    intro i sm dm sm2 dm2 _ hm
    simp [headerHasMarker] at hm
  | cons s rest ih =>
    intro i sm dm sm2 dm2 h hm
    simp only [headerHasMarker, List.any_cons, Bool.or_eq_true] at hm
    simp only [scanEdgeHeaderAux] at h
    rcases hp : (splitOnChar s ':')[1]? with _ | p
    · simp only [hp] at h; simp at h
    · simp only [hp] at h
      by_cases hS : strStartsWith p "START_ID" = true
      · have hmr : headerHasMarker "END_ID" rest = true := by
          rcases hm with hm | hm
          · exfalso
            simp only [colTypeHasMarker, hp] at hm
            rw [end_not_start hm] at hS
            exact Bool.noConfusion hS
          · exact hm
        rw [if_pos hS] at h
        by_cases hi : i = 0
        · rw [if_pos hi] at h
          rcases hstep : scanEdgeStep sl sm with _ | sm3
          · simp only [hstep] at h; simp at h
          · simp only [hstep] at h
            exact ih (i + 1) sm3 dm sm2 dm2 h hmr
        · rw [if_neg hi] at h; simp at h
      · rw [if_neg hS] at h
        by_cases hE : strStartsWith p "END_ID" = true
        · rw [if_pos hE] at h
          by_cases hi : i = 1
          · rw [if_pos hi] at h
            rcases hstep : scanEdgeStep dl dm with _ | dm3
            · simp only [hstep] at h; simp at h
            · simp only [hstep] at h
              have hpr := scanAux_preserve sl dl rest (i + 1) sm dm3 sm2 dm2 h
              constructor
              · intro hOrg
                subst hOrg
                exact hpr.2 _ (scanEdgeStep_org hstep)
              · intro hPlace
                subst hPlace
                exact hpr.2 _ (scanEdgeStep_place hstep)
          · rw [if_neg hi] at h; simp at h
        · have hmr : headerHasMarker "END_ID" rest = true := by
            rcases hm with hm | hm
            · exfalso
              simp only [colTypeHasMarker, hp] at hm
              exact hE hm
            · exact hm
          rw [if_neg hE] at h
          exact ih (i + 1) sm dm sm2 dm2 h hmr

/-! ### Stable sort lemmas -/

theorem mem_insertByKey {z x : String} {m : List String} (h : z ∈ insertByKey x m) :
    z = x ∨ z ∈ m := by
  induction m with
  | nil =>
    simp [insertByKey] at h
    exact Or.inl h
  | cons y t ih =>
    simp only [insertByKey] at h
    by_cases hk : sortKey x ≤ sortKey y
    · rw [if_pos hk] at h
      rcases List.mem_cons.mp h with h | h
      · exact Or.inl h
      · exact Or.inr h
    · rw [if_neg hk] at h
      rcases List.mem_cons.mp h with h | h
      · subst h
        exact Or.inr (List.mem_cons_self _ _)
      · rcases ih h with h2 | h2
        · exact Or.inl h2
        · exact Or.inr (List.mem_cons_of_mem _ h2)

theorem perm_insertByKey (x : String) (m : List String) :
    List.Perm (insertByKey x m) (x :: m) := by
  induction m with
  | nil => exact List.Perm.refl _
  | cons y t ih =>
    simp only [insertByKey]
    by_cases hk : sortKey x ≤ sortKey y
    · rw [if_pos hk]
    · rw [if_neg hk]
      exact (ih.cons y).trans (List.Perm.swap x y t)

theorem sorted_insertByKey {x : String} {m : List String}
    (h : List.Pairwise (fun a b => sortKey a ≤ sortKey b) m) :
    List.Pairwise (fun a b => sortKey a ≤ sortKey b) (insertByKey x m) := by
  induction m with
  | nil => simp [insertByKey]
  | cons y t ih =>
    obtain ⟨hy, ht⟩ := List.pairwise_cons.mp h
    simp only [insertByKey]
    by_cases hk : sortKey x ≤ sortKey y
    · rw [if_pos hk]
      refine List.Pairwise.cons ?_ h
      intro z hz
      rcases List.mem_cons.mp hz with h2 | h2
      · subst h2; exact hk
      · exact le_trans hk (hy z h2)
    · rw [if_neg hk]
      refine List.Pairwise.cons ?_ (ih ht)
      intro z hz
      rcases mem_insertByKey hz with h2 | h2
      · subst h2; omega
      · exact hy z h2

theorem sorted_orderFiles (l : List String) :
    List.Pairwise (fun a b => sortKey a ≤ sortKey b) (orderFiles l) := by
  induction l with
  | nil => simp [orderFiles]
  | cons x t ih => exact sorted_insertByKey ih

theorem perm_orderFiles (l : List String) : List.Perm (orderFiles l) l := by
  induction l with
  | nil => exact List.Perm.refl _
  | cons x t ih => exact (perm_insertByKey x (orderFiles t)).trans (ih.cons x)

theorem filter_insertByKey (x : String) (m : List String) (k : Nat) :
    (insertByKey x m).filter (fun s => sortKey s == k) =
      if sortKey x = k then x :: m.filter (fun s => sortKey s == k)
      else m.filter (fun s => sortKey s == k) := by
  induction m with
  | nil =>
    by_cases hx : sortKey x = k <;>
      simp [insertByKey, List.filter_cons, List.filter_nil, hx]
  | cons y t ih =>
    simp only [insertByKey]
    by_cases hk : sortKey x ≤ sortKey y
    · rw [if_pos hk]
      by_cases hx : sortKey x = k <;> simp [List.filter_cons, hx]
    · rw [if_neg hk]
      by_cases hy : sortKey y = k
      · have hx : ¬ sortKey x = k := by omega
        simp [List.filter_cons, hy, hx, ih]
      · by_cases hx : sortKey x = k <;> simp [List.filter_cons, hy, hx, ih]

theorem filter_orderFiles (l : List String) (k : Nat) :
    (orderFiles l).filter (fun s => sortKey s == k) = l.filter (fun s => sortKey s == k) := by
  induction l with
  | nil => rfl
  | cons x t ih =>
    show (insertByKey x (orderFiles t)).filter _ = _
    rw [filter_insertByKey]
    by_cases hx : sortKey x = k
    · rw [if_pos hx, ih]
      simp [List.filter_cons, hx]
    · rw [if_neg hx, ih]
      simp [List.filter_cons, hx]

/-! ### Claim theorems -/

/-- Claim C1: for every consumed edge row, after the source and destination
labels are resolved (resolved labels are canonical dictionary names or registry
family names, hence nonempty), the accumulator increments exactly the 8 nested
counters drawn from the wildcard lattice of the triple, each by 1, and leaves
every other counter unchanged; after any sequence of edge rows all 8 wildcard
combinations of every observed triple are present, and the fully-wildcarded
entry equals the total number of edge rows consumed. -/
theorem c1_edge_lattice_rollup (ts : List (String × String × String))
    (hts : ∀ t ∈ ts, t.1 ≠ "" ∧ t.2.1 ≠ "" ∧ t.2.2 ≠ "") :
    (∀ (m : SMap) (s e d a b c : String), s ≠ "" → e ≠ "" → d ≠ "" →
      cntS (importEdgeTriple m s e d) a b c =
        cntS m a b c +
          (if (a = s ∨ a = "") ∧ (b = e ∨ b = "") ∧ (c = d ∨ c = "") then 1 else 0)) ∧
    (∀ t ∈ ts, ∀ a b c : String, (a = t.1 ∨ a = "") → (b = t.2.1 ∨ b = "") →
      (c = t.2.2 ∨ c = "") → hasEntry (accumEdges [] ts) a b c = true) ∧
    cntS (accumEdges [] ts) "" "" "" = ts.length := by
  refine ⟨fun m s e d a b c hs he hd => cntS_importEdgeTriple hs he hd m a b c, ?_, ?_⟩
  · intro t ht a b c ha hb hc
    exact hasEntry_accumEdges_of_mem ts [] t ha hb hc ht
  · have h := cntS_accumEdges_wildcard ts [] hts
    rw [h]
    simp [cntS, cntE, cnt, lookupA]

/-- Witness for C1 at the run consisting of one Person-KNOWS-Person row. -/
theorem c1_witness :
    cntS (importEdgeTriple [] "Person" "KNOWS" "Person") "" "" "" = 1 ∧
    hasEntry (accumEdges [] [("Person", "KNOWS", "Person")]) "Person" "" "Person" = true ∧
    cntS (accumEdges [] [("Person", "KNOWS", "Person")]) "" "" "" = 1 := by
  have h := c1_edge_lattice_rollup [("Person", "KNOWS", "Person")] (by decide)
  refine ⟨?_, ?_, h.2.2⟩
  · have h2 := h.1 [] "Person" "KNOWS" "Person" "" "" "" (by decide) (by decide) (by decide)
    rw [h2]
    decide
  · exact h.2.1 ("Person", "KNOWS", "Person") (by decide) "Person" "" "Person"
      (Or.inl rfl) (Or.inr rfl) (Or.inl rfl)

/-- Claim C2 counterexample: the claim as stated is false on the code.  A vertex
row whose label column holds the empty string is consumed successfully but
bumps the wildcard entry twice and no concrete entry, breaking the equality.
The input is a vertex file with a label column at index 1 and the single row
with fields "1" and "". -/
theorem c2_counterexample :
    ¬ (∀ rows c, import_vertex_rows initContext rows = .ok c →
        vertexWildcard c.statistics.vertex_cardinality =
          vertexConcreteSum c.statistics.vertex_cardinality) := by
  intro h
  have h2 := h [(some 1, "Person", ["1", ""])] ⟨⟨[("", 2)], []⟩, [], []⟩ (by decide)
  exact absurd h2 (by decide)

/-- Claim C2 as amended: provided every consumed row resolves to a nonempty
label (the wildcard string is never a row label), after any successful run the
wildcard entry of the vertex cardinality table equals the sum of all
non-wildcard entries. -/
theorem c2_wildcard_sum_amended (rows : List (Option Nat × String × List String))
    (c : Context) (hl : ∀ r ∈ rows, rowLabel r ≠ "")
    (h : import_vertex_rows initContext rows = .ok c) :
    vertexWildcard c.statistics.vertex_cardinality =
      vertexConcreteSum c.statistics.vertex_cardinality :=
  import_vertex_rows_inv rows initContext c hl rfl h

/-- Witness for the amended C2 at a one-row run. -/
theorem c2_witness :
    vertexWildcard ([("Person", 1), ("", 1)] : VMap) =
      vertexConcreteSum ([("Person", 1), ("", 1)] : VMap) :=
  c2_wildcard_sum_amended [(none, "Person", ["1"])]
    ⟨⟨[("Person", 1), ("", 1)], []⟩, [], []⟩ (by decide) (by decide)

/-- Claim C3: an endpoint of an edge file resolves through the identity
registry exactly when its declared label is Organisation or Place, provided the
header carries the START_ID and END_ID marker columns the format mandates; the
label used for accumulation is the registry entry of the row identifier for an
indirected endpoint and the file label otherwise; and resolution of an
identifier absent from the registry is fatal. -/
theorem c3_endpoint_resolution :
    (∀ (sl dl : String) (header : List String) (sm dm : Option Fam),
      scanEdgeHeader sl dl header = .ok (sm, dm) →
      ((sm = some Fam.organisation → sl = "Organisation") ∧
       (sm = some Fam.place → sl = "Place") ∧
       (dm = some Fam.organisation → dl = "Organisation") ∧
       (dm = some Fam.place → dl = "Place") ∧
       (headerHasMarker "START_ID" header = true →
         (sl = "Organisation" → sm = some Fam.organisation) ∧
         (sl = "Place" → sm = some Fam.place)) ∧
       (headerHasMarker "END_ID" header = true →
         (dl = "Organisation" → dm = some Fam.organisation) ∧
         (dl = "Place" → dm = some Fam.place)))) ∧
    (∀ (fileLabel : String) (ctx : Context) (id : Nat),
      resolveEndpoint none fileLabel ctx id = some fileLabel) ∧
    (∀ (f : Fam) (fileLabel : String) (ctx : Context) (id : Nat),
      resolveEndpoint (some f) fileLabel ctx id = lookupA (ctx.reg f) id) ∧
    (∀ (sm dm : Option Fam) (L : String × String × String) (ctx : Context)
      (rec : List String) (c : Context), import_edge_row sm dm L ctx rec = .ok c →
      ∃ s0 i0 s1 i1 sl2 dl2, rec[0]? = some s0 ∧ parseU64 s0 = some i0 ∧
        rec[1]? = some s1 ∧ parseU64 s1 = some i1 ∧
        resolveEndpoint sm L.1 ctx i0 = some sl2 ∧
        resolveEndpoint dm L.2.2 ctx i1 = some dl2 ∧
        c.statistics.edge_cardinality =
          importEdgeTriple ctx.statistics.edge_cardinality sl2 L.2.1 dl2) ∧
    (∀ (sm dm : Option Fam) (L : String × String × String) (ctx : Context)
      (rec : List String) (s0 : String) (i0 : Nat) (s1 : String) (i1 : Nat) (f : Fam),
      rec[0]? = some s0 → parseU64 s0 = some i0 → rec[1]? = some s1 → parseU64 s1 = some i1 →
      sm = some f → lookupA (ctx.reg f) i0 = none →
      import_edge_row sm dm L ctx rec = .error .unresolvedIdentifier) ∧
    (∀ (sm dm : Option Fam) (L : String × String × String) (ctx : Context)
      (rec : List String) (s0 : String) (i0 : Nat) (s1 : String) (i1 : Nat)
      (sl2 : String) (f : Fam),
      rec[0]? = some s0 → parseU64 s0 = some i0 → rec[1]? = some s1 → parseU64 s1 = some i1 →
      resolveEndpoint sm L.1 ctx i0 = some sl2 →
      dm = some f → lookupA (ctx.reg f) i1 = none →
      import_edge_row sm dm L ctx rec = .error .unresolvedIdentifier) := by
  refine ⟨?_, fun _ _ _ => rfl, fun _ _ _ _ => rfl, ?_, ?_, ?_⟩
  · intro sl dl header sm dm h
    have hsound := scanAux_sound sl dl header 0 none none sm dm h
    refine ⟨?_, ?_, ?_, ?_, ?_, ?_⟩
    · intro hf
      rcases hsound.1 _ hf with h1 | h1 | h1
      · exact Option.noConfusion h1
      · exact h1.2
      · exact absurd h1.1 (by decide)
    · intro hf
      rcases hsound.1 _ hf with h1 | h1 | h1
      · exact Option.noConfusion h1
      · exact absurd h1.1 (by decide)
      · exact h1.2
    · intro hg
      rcases hsound.2 _ hg with h1 | h1 | h1
      · exact Option.noConfusion h1
      · exact h1.2
      · exact absurd h1.1 (by decide)
    · intro hg
      rcases hsound.2 _ hg with h1 | h1 | h1
      · exact Option.noConfusion h1
      · exact absurd h1.1 (by decide)
      · exact h1.2
    · intro hm
      exact scanAux_complete_src sl dl header 0 none none sm dm h hm
    · intro hm
      exact scanAux_complete_dst sl dl header 0 none none sm dm h hm
  · intro sm dm L ctx rec c h
    obtain ⟨s0, i0, s1, i1, sl2, dl2, a0, a1, a2, a3, a4, a5, hc⟩ := import_edge_row_ok_inv h
    subst hc
    exact ⟨s0, i0, s1, i1, sl2, dl2, a0, a1, a2, a3, a4, a5, rfl⟩
  · intro sm dm L ctx rec s0 i0 s1 i1 f h0 h1 h2 h3 hf h4
    exact import_edge_row_src_unresolved h0 h1 h2 h3 hf h4
  · intro sm dm L ctx rec s0 i0 s1 i1 sl2 f h0 h1 h2 h3 hsl hf h4
    exact import_edge_row_dst_unresolved h0 h1 h2 h3 hsl hf h4

/-- Witness for C3: an unregistered place identifier is fatal, and a resolved
endpoint uses the registry entry; together with a concrete header scan that
attaches the place registry to the destination endpoint. -/
theorem c3_witness :
    import_edge_row (some Fam.place) none ("Place", "IS_LOCATED_IN", "Country")
      ⟨⟨[], []⟩, [(3, "City")], []⟩ ["4", "7"] = .error .unresolvedIdentifier ∧
    resolveEndpoint (some Fam.place) "Place" ⟨⟨[], []⟩, [(3, "City")], []⟩ 3 = some "City" ∧
    scanEdgeHeader "Comment" "Place" ["a:START_ID", "b:END_ID"] = .ok (none, some Fam.place) := by
  refine ⟨?_, ?_, by decide⟩
  · exact c3_endpoint_resolution.2.2.2.2.1 (some Fam.place) none
      ("Place", "IS_LOCATED_IN", "Country") ⟨⟨[], []⟩, [(3, "City")], []⟩ ["4", "7"]
      "4" 4 "7" 7 Fam.place (by decide) (by decide) (by decide) (by decide) rfl (by decide)
  · rw [c3_endpoint_resolution.2.2.1 Fam.place "Place" ⟨⟨[], []⟩, [(3, "City")], []⟩ 3]
    decide

/-- Claim C4: the orchestrator ordering is a stable sort keyed on the number of
underscore-separated tokens of the file stem, ascending: the output is a
permutation of the input, pairwise sorted by the key, preserves the relative
order of equal-key names, and never places a 3-token (edge) name before a
2-token (vertex) name, regardless of enumeration order. -/
theorem c4_vertex_before_edge (l : List String) :
    List.Perm (orderFiles l) l ∧
    List.Pairwise (fun a b => sortKey a ≤ sortKey b) (orderFiles l) ∧
    (∀ k, (orderFiles l).filter (fun s => sortKey s == k) =
      l.filter (fun s => sortKey s == k)) ∧
    List.Pairwise (fun a b => ¬(sortKey a = 3 ∧ sortKey b = 2)) (orderFiles l) := by
  refine ⟨perm_orderFiles l, sorted_orderFiles l, fun k => filter_orderFiles l k, ?_⟩
  exact (sorted_orderFiles l).imp (fun hab => by omega)

/-- Claim C5 exhibit: a vertex file whose second record is malformed completes
the consumer loop normally, keeping the rows before the failure and returning
successfully instead of aborting the run.  The producer panic happens in a
detached task whose join handle is never awaited, so the runtime swallows it
and the channel merely closes. -/
theorem c5_producer_failure_completes :
    import_vertex none "Person" initContext [some ["1"], none, some ["2"]] =
      .ok ⟨⟨[("Person", 1), ("", 1)], []⟩, [], []⟩ := by decide

/-- Claim C6: for every consumed vertex row, the label is the row value of the
label column when one is declared, otherwise the file label; that label and
the wildcard are each incremented by 1 and nothing else changes in the vertex
table; a label in an identifier-indirected family (which can only arise
through a label column, since the resolver never produces a family label as a
file label) is registered in the matching registry in the same update, and
rows outside the families leave both registries unchanged. -/
theorem c6_vertex_row_semantics (li : Option Nat) (ln : String) (ctx : Context)
    (rec : List String) (c : Context) (h : import_vertex_row li ln ctx rec = .ok c) :
    (∀ k, cnt c.statistics.vertex_cardinality k =
      cnt ctx.statistics.vertex_cardinality k +
        (if k = rowLabel (li, ln, rec) then 1 else 0) + (if k = "" then 1 else 0)) ∧
    (li = none → c.place = ctx.place ∧ c.organisation = ctx.organisation) ∧
    (∀ i, li = some i → ∃ lbl, rec[i]? = some lbl ∧
      (familyPlace lbl = true →
        ∃ s id, rec[0]? = some s ∧ parseU64 s = some id ∧ lookupA ctx.place id = none ∧
          c.place = (id, lbl) :: ctx.place ∧ c.organisation = ctx.organisation) ∧
      (familyOrganisation lbl = true →
        ∃ s id, rec[0]? = some s ∧ parseU64 s = some id ∧
          lookupA ctx.organisation id = none ∧
          c.organisation = (id, lbl) :: ctx.organisation ∧ c.place = ctx.place) ∧
      (familyPlace lbl = false → familyOrganisation lbl = false →
        c.place = ctx.place ∧ c.organisation = ctx.organisation)) ∧
    (∀ n lbl, resolve_vertex_name n = some lbl →
      familyPlace lbl = false ∧ familyOrganisation lbl = false) := by
  refine ⟨?_, ?_, ?_, fun n lbl hn => resolve_vertex_name_not_family hn⟩
  · intro k
    rw [import_vertex_row_ok_vc h, cnt_bumpCount, cnt_bumpCount]
  · intro hli
    subst hli
    rw [import_vertex_row_none_ok h]
    exact ⟨rfl, rfl⟩
  · intro i hli
    subst hli
    obtain ⟨lbl, c2, h0, h1, h2⟩ := import_vertex_row_some_ok h
    subst h2
    have inv := registerLabel_ok_inv h1
    refine ⟨lbl, h0, ?_, ?_, ?_⟩
    · intro hp
      obtain ⟨s, id, e0, e1, e2, e3, e4⟩ := inv.2.1 hp
      exact ⟨s, id, e0, e1, e2, by rw [bumpVertex_place, e3],
        by rw [bumpVertex_organisation, e4]⟩
    · intro ho
      obtain ⟨s, id, e0, e1, e2, e3, e4⟩ := inv.2.2.1 ho
      exact ⟨s, id, e0, e1, e2, by rw [bumpVertex_organisation, e3],
        by rw [bumpVertex_place, e4]⟩
    · intro hp ho
      have hc := inv.2.2.2 hp ho
      exact ⟨by rw [bumpVertex_place, hc], by rw [bumpVertex_organisation, hc]⟩

/-- Witness for C6 at a place-family row with a label column. -/
theorem c6_witness :
    cnt ([("City", 1), ("", 1)] : VMap) "City" =
      cnt ([] : VMap) "City" +
        (if "City" = rowLabel (some 1, "Person", ["7", "City"]) then 1 else 0) +
        (if ("City" : String) = "" then 1 else 0) := by
  have h := c6_vertex_row_semantics (some 1) "Person" initContext ["7", "City"]
    ⟨⟨[("City", 1), ("", 1)], []⟩, [(7, "City")], []⟩ (by decide)
  exact h.1 "City"

/-- Claim C7: importing two vertex rows of the same identifier-indirected
family carrying the same numeric identifier is fatal: the second row fails
with the duplicate-identifier error. -/
theorem c7_duplicate_identifier_fatal (f : Fam) (ctx c1 : Context) (i j : Nat)
    (ln1 ln2 : String) (r1 r2 : List String) (lbl1 lbl2 s1 s2 : String) (id : Nat)
    (h0 : r1[i]? = some lbl1) (h1 : famCheck f lbl1 = true)
    (h2 : r1[0]? = some s1) (h3 : parseU64 s1 = some id)
    (h : import_vertex_row (some i) ln1 ctx r1 = .ok c1)
    (g0 : r2[j]? = some lbl2) (g1 : famCheck f lbl2 = true)
    (g2 : r2[0]? = some s2) (g3 : parseU64 s2 = some id) :
    import_vertex_row (some j) ln2 c1 r2 = .error .duplicateIdentifier := by
  have hreg := import_vertex_row_registers h0 h1 h2 h3 h
  exact import_vertex_row_dup g0 g1 g2 g3 hreg

/-- Witness for C7: a City row and a Country row sharing identifier 5. -/
theorem c7_witness :
    import_vertex_row (some 1) "Place" ⟨⟨[("City", 1), ("", 1)], []⟩, [(5, "City")], []⟩
      ["5", "Country"] = .error .duplicateIdentifier :=
  c7_duplicate_identifier_fatal Fam.place initContext
    ⟨⟨[("City", 1), ("", 1)], []⟩, [(5, "City")], []⟩ 1 1 "Place" "Place"
    ["5", "City"] ["5", "Country"] "City" "Country" "5" "5" 5
    (by decide) (by decide) (by decide) (by decide) (by decide)
    (by decide) (by decide) (by decide) (by decide)

/-- Claim C8 counterexample: the file name place_person_xyz has a middle token
that resolves in the vertex dictionary and a last token that resolves in
neither dictionary, which the claim classifies as a fatal partial resolution,
yet the resolver returns a Vertex task: the middle token is only looked up in
the edge dictionary and the last token only in the vertex dictionary. -/
theorem c8_counterexample :
    resolve_file_name "place_person_xyz" = .ok (LabelName.Vertex "Place") ∧
    resolve_vertex_name "person" = some "Person" :=
  ⟨by decide, by decide⟩

/-- Claim C8 as amended: with at least three tokens, the resolver classifies
as an Edge task when the first and third tokens resolve as vertex names and
the middle as an edge name; as a Vertex task when the first token resolves as
a vertex name, the middle token fails the edge-name lookup and the third
token fails the vertex-name lookup (tokens are never checked against the
other dictionary); every other combination of these three lookups is a fatal
error naming the three tokens. -/
theorem c8_resolver_amended (name t0 t1 t2 : String)
    (h0 : (splitOnChar name '_')[0]? = some t0)
    (h1 : (splitOnChar name '_')[1]? = some t1)
    (h2 : (splitOnChar name '_')[2]? = some t2) :
    (∀ a b c, resolve_vertex_name t0 = some a → resolve_edge_name t1 = some b →
      resolve_vertex_name t2 = some c →
      resolve_file_name name = .ok (LabelName.Edge a b c)) ∧
    (∀ a, resolve_vertex_name t0 = some a → resolve_edge_name t1 = none →
      resolve_vertex_name t2 = none → resolve_file_name name = .ok (LabelName.Vertex a)) ∧
    (resolve_vertex_name t0 = none →
      resolve_file_name name = .error (.illegalLabelName t0 t1 t2)) ∧
    (∀ a b, resolve_vertex_name t0 = some a → resolve_edge_name t1 = some b →
      resolve_vertex_name t2 = none →
      resolve_file_name name = .error (.illegalLabelName t0 t1 t2)) ∧
    (∀ a c, resolve_vertex_name t0 = some a → resolve_edge_name t1 = none →
      resolve_vertex_name t2 = some c →
      resolve_file_name name = .error (.illegalLabelName t0 t1 t2)) := by
  refine ⟨?_, ?_, ?_, ?_, ?_⟩
  · intro a b c ha hb hc
    simp [resolve_file_name, h0, h1, h2, ha, hb, hc]
  · intro a ha hb hc
    simp [resolve_file_name, h0, h1, h2, ha, hb, hc]
  · intro ha
    simp [resolve_file_name, h0, h1, h2, ha]
  · intro a b ha hb hc
    simp [resolve_file_name, h0, h1, h2, ha, hb, hc]
  · intro a c ha hb hc
    simp [resolve_file_name, h0, h1, h2, ha, hb, hc]

/-- Witness for the amended C8 at the edge file name person_knows_person. -/
theorem c8_witness :
    resolve_file_name "person_knows_person" = .ok (LabelName.Edge "Person" "KNOWS" "Person") :=
  (c8_resolver_amended "person_knows_person" "person" "knows" "person"
    (by decide) (by decide) (by decide)).1 "Person" "KNOWS" "Person"
    (by decide) (by decide) (by decide)

/-- Claim C9: the resolver indexes the first three underscore-separated tokens
unconditionally, so any name with fewer than three tokens fails fatally with
the out-of-bounds error before any classification is attempted. -/
theorem c9_short_name_fatal (name : String) (h : (splitOnChar name '_').length < 3) :
    resolve_file_name name = .error .indexOutOfBounds := by
  have h2 : (splitOnChar name '_')[2]? = none := by
    apply List.getElem?_eq_none
    omega
  rcases h0 : (splitOnChar name '_')[0]? with _ | t0 <;>
    rcases h1 : (splitOnChar name '_')[1]? with _ | t1 <;>
    simp [resolve_file_name, h0, h1, h2]

/-- Witness for C9 at the 2-token vertex-file shape person_0. -/
theorem c9_witness :
    (splitOnChar "person_0" '_').length < 3 ∧
    resolve_file_name "person_0" = .error .indexOutOfBounds :=
  ⟨by decide, c9_short_name_fatal "person_0" (by decide)⟩

/-- Claim C10: edge import never modifies the vertex cardinality table or
either registry family, at row level and over whole files, and vertex import
never modifies the edge cardinality table. -/
theorem c10_frame_conditions :
    (∀ (sm dm : Option Fam) (L : String × String × String) (ctx : Context)
      (rec : List String) (c : Context), import_edge_row sm dm L ctx rec = .ok c →
      c.statistics.vertex_cardinality = ctx.statistics.vertex_cardinality ∧
      c.place = ctx.place ∧ c.organisation = ctx.organisation) ∧
    (∀ (sm dm : Option Fam) (L : String × String × String) (rows : List (List String))
      (ctx c : Context), import_edge_rows sm dm L ctx rows = .ok c →
      c.statistics.vertex_cardinality = ctx.statistics.vertex_cardinality ∧
      c.place = ctx.place ∧ c.organisation = ctx.organisation) ∧
    (∀ (li : Option Nat) (ln : String) (ctx : Context) (rec : List String) (c : Context),
      import_vertex_row li ln ctx rec = .ok c →
      c.statistics.edge_cardinality = ctx.statistics.edge_cardinality) ∧
    (∀ (rows : List (Option Nat × String × List String)) (ctx c : Context),
      import_vertex_rows ctx rows = .ok c →
      c.statistics.edge_cardinality = ctx.statistics.edge_cardinality) := by
  refine ⟨?_, ?_, ?_, ?_⟩
  · intro sm dm L ctx rec c h
    obtain ⟨_, _, _, _, _, _, _, _, _, _, _, _, hc⟩ := import_edge_row_ok_inv h
    subst hc
    exact ⟨rfl, rfl, rfl⟩
  · intro sm dm L rows ctx c h
    exact import_edge_rows_frame rows ctx c h
  · intro li ln ctx rec c h
    exact import_vertex_row_ok_ec h
  · intro rows ctx c h
    exact import_vertex_rows_ec rows ctx c h

/-- Witness for C10 at a one-row vertex import and a one-row edge import. -/
theorem c10_witness :
    ((⟨⟨[("Person", 1), ("", 1)], []⟩, [], []⟩ : Context).statistics.edge_cardinality =
      initContext.statistics.edge_cardinality) ∧
    ((⟨⟨[], importEdgeTriple [] "Person" "KNOWS" "Person"⟩, [], []⟩ : Context).place =
      initContext.place) := by
  constructor
  · exact c10_frame_conditions.2.2.1 none "Person" initContext ["1"]
      ⟨⟨[("Person", 1), ("", 1)], []⟩, [], []⟩ (by decide)
  · exact (c10_frame_conditions.1 none none ("Person", "KNOWS", "Person") initContext
      ["1", "2"] ⟨⟨[], importEdgeTriple [] "Person" "KNOWS" "Person"⟩, [], []⟩
      (by decide)).2.1

end LdbcStat
